import Mathlib

/-!
Verification development for the Hessian-trace sensitivity estimation engine of a
post-training model-quantization toolkit.

Shallow embedding of:
  * `model_compression_toolkit/core/pytorch/hessian/weights_trace_hessian_calculator_pytorch.py`
    (`WeightsTraceHessianCalculatorPytorch.compute`)
  * `model_compression_toolkit/core/keras/hessian/trace_hessian_calculator_keras.py`
    (`TraceHessianCalculatorKeras._concat_tensors`)
  * `model_compression_toolkit/common/framework_info.py` (`FrameworkInfo`)
  * `model_compression_toolkit/common/quantization/quantization_analyzer.py`
    (`create_tensor2node`, `analyzer_graph`)

Tensors are modelled as a shape (list of dimension sizes, row-major) together with an
entry function from multi-indices to rationals; floating point is modelled by `ℚ`.
External collaborators (the autograd engine, the random-number generator, the float
model builder, the logger) are modelled as oracles / explicit error results, as noted
at each definition.
-/

namespace MCT

/-- A dense tensor: a shape and an entry function on multi-indices.  Entries at
indices outside the shape's index range are irrelevant (theorems quantify over the
valid indices enumerated by `allIdx`). -/
structure Tensor where
  shape : List Nat
  entry : List Nat → ℚ

instance : Inhabited Tensor := ⟨⟨[], fun _ => 0⟩⟩

/-- All valid multi-indices of a shape, in row-major order. -/
def allIdx : List Nat → List (List Nat)
  | [] => [[]]
  | d :: ds => (List.range d).flatMap (fun i => (allIdx ds).map (fun ix => i :: ix))

/-- Keep the positions of a list whose index (starting at `k`) is NOT in `dims`.
Applied to a shape this is the shape left by `torch.sum(_, dim=dims)`; applied to a
multi-index it is the sub-index at the kept axes. -/
def keepNotIn (dims : List Nat) : Nat → List Nat → List Nat
  | _, [] => []
  | k, a :: as => if k ∈ dims then keepNotIn dims (k + 1) as else a :: keepNotIn dims (k + 1) as

/-- Embedding of `torch.sum(t, dim=dims)` (no `keepdim`): the axes listed in `dims`
are summed out, the remaining axes are kept in order. -/
def sumDims (dims : List Nat) (t : Tensor) : Tensor :=
  ⟨keepNotIn dims 0 t.shape,
   fun m => (((allIdx t.shape).filter (fun ix => decide (keepNotIn dims 0 ix = m))).map t.entry).sum⟩

/-- Elementwise product (`v * output_tensor`). -/
def tmul (a b : Tensor) : Tensor := ⟨a.shape, fun ix => a.entry ix * b.entry ix⟩

/-- Elementwise square (`f_v_grad ** 2`). -/
def tsquare (a : Tensor) : Tensor := ⟨a.shape, fun ix => a.entry ix ^ 2⟩

/-- Elementwise sum of two same-shaped tensors. -/
def tadd (a b : Tensor) : Tensor := ⟨a.shape, fun ix => a.entry ix + b.entry ix⟩

/-- Elementwise difference of two same-shaped tensors. -/
def tsub (a b : Tensor) : Tensor := ⟨a.shape, fun ix => a.entry ix - b.entry ix⟩

/-- Division of a tensor by a scalar. -/
def scalarDiv (a : Tensor) (q : ℚ) : Tensor := ⟨a.shape, fun ix => a.entry ix / q⟩

/-- Embedding of `torch.mean(t)` over all elements: total sum divided by the number
of elements (`numel = prod shape`). -/
def tmean (t : Tensor) : ℚ := (((allIdx t.shape).map t.entry).sum) / ((t.shape.prod : Nat) : ℚ)

/-- Embedding of `torch.sum(torch.stack ts, dim=0)` for a list of same-shaped tensors. -/
def sumStack (ts : List Tensor) : Tensor :=
  ⟨ts.headI.shape, fun ix => (ts.map (fun t => t.entry ix)).sum⟩

/-- Embedding of `torch.mean(torch.stack ts, dim=0)` for a list of same-shaped tensors. -/
def meanStack (ts : List Tensor) : Tensor :=
  ⟨ts.headI.shape, fun ix => (ts.map (fun t => t.entry ix)).sum / ((ts.length : Nat) : ℚ)⟩

/-- Embedding of `t.reshape(1)` applied to a zero-dimensional (scalar) tensor. -/
def reshape1 (t : Tensor) : Tensor := ⟨[1], fun _ => t.entry []⟩

/-- Row-major unflattening of a flat position into a multi-index for `dims`. -/
def unflatten : List Nat → Nat → List Nat
  | [], _ => []
  | d :: ds, f => (f / ds.prod) % d :: unflatten ds (f % ds.prod)

/-- Embedding of `tf.reshape(tensor, shape=[tensor.shape[0], -1])`: flatten all axes
after the first. -/
def reshapeBatchFlat (t : Tensor) : Tensor :=
  ⟨[t.shape.headI, t.shape.tail.prod],
   fun ix => t.entry (ix.headI :: unflatten t.shape.tail (ix.getD 1 0))⟩

/-- Entry lookup for a concatenation of 2-D `(batch, features)` tensors along axis 1. -/
def concatEntry : List Tensor → Nat → Nat → ℚ
  | [], _, _ => 0
  | t :: rest, b, f =>
    if f < t.shape.getD 1 0 then t.entry [b, f] else concatEntry rest b (f - t.shape.getD 1 0)

/-- Embedding of `tf.concat(_r_tensors, axis=1)` for 2-D tensors sharing axis 0. -/
def concatAxis1 (ts : List Tensor) : Tensor :=
  ⟨[ts.headI.shape.headI, (ts.map (fun t => t.shape.getD 1 0)).sum],
   fun ix => concatEntry ts ix.headI (ix.getD 1 0)⟩

/-- Modelled from the spec: the repository's `Logger.error` / `Logger.critical`
(the logger module is not among the analysed sources) report a fatal error and abort
the computation; the spec calls all of these errors fatal and unrecoverable, so they
are modelled as `Except.error` results carrying the error kind. -/
inductive HErr where
  | unsupportedOp
  | unsupportedTopology
  | shapeMismatch
  deriving DecidableEq

/-- Embedding of `TraceHessianCalculatorKeras._concat_tensors` (keras
`trace_hessian_calculator_keras.py`, lines 59-80): reshape every output to
`(batch, -1)`, fail fatally when the first-axis sizes disagree, otherwise concatenate
along axis 1.  The `unfold_tensors_list` flattening of a nested argument is outside
the embedding: the argument here is already a flat list of tensors. -/
def concatTensors (tensors_to_concate : List Tensor) : Except HErr Tensor :=
  let r_tensors : List Tensor := tensors_to_concate.map reshapeBatchFlat
  let concat_axis_dim : List Nat := r_tensors.map (fun o => o.shape.headI)
  if !(concat_axis_dim.all (fun d => decide (d = concat_axis_dim.headI))) then
    Except.error HErr.shapeMismatch
  else
    Except.ok (concatAxis1 r_tensors)

/-- Granularity of a trace-Hessian request (`HessianInfoGranularity`). -/
inductive Granularity where
  | PER_TENSOR
  | PER_OUTPUT_CHANNEL
  | PER_ELEMENT
  deriving DecidableEq

/-- Embedding of lines 89-93 of `weights_trace_hessian_calculator_pytorch.py`:
`shape_channel_axis = [i for i in range(len(weights_tensor.shape))]`, with the output
channel axis removed for `PER_OUTPUT_CHANNEL` and the whole list replaced by `()` for
`PER_ELEMENT`.  (`list.remove` removes the one occurrence of the axis in the range;
`List.erase` matches it whenever the axis is a valid axis of the shape.) -/
def shapeChannelAxis (granularity : Granularity) (wshape : List Nat) (output_channel_axis : Nat) :
    List Nat :=
  match granularity with
  | Granularity.PER_OUTPUT_CHANNEL => (List.range wshape.length).erase output_channel_axis
  | Granularity.PER_ELEMENT => []
  | Granularity.PER_TENSOR => List.range wshape.length

/-- Parameters threaded through the Hutchinson iteration loop of `compute`
(lines 100-122).  The random source (`torch.randn_like`, giving an entry function per
iteration for a tensor of the model-output shape) and the autograd engine
(`autograd.grad(outputs=f_v, inputs=weights_tensor, retain_graph=True)`, a function of
the scalar `f_v` and of the random vector `v` that determined the tape) are external
collaborators, modelled as oracle functions. -/
structure LoopP where
  sca : List Nat
  output : Tensor
  randn : Nat → List Nat → ℚ
  gradW : ℚ → Tensor → Tensor
  minIter : Nat
  eps : ℚ
  tol : ℚ

/-- Lines 102-113 of the loop body for iteration `j`: draw `v = randn_like(output)`,
form `f_v = mean(sum(v * output, dim=-1))`, take the gradient w.r.t. the weights,
square it elementwise, and reduce-sum over `shape_channel_axis` when that list is
nonempty. -/
def approxAt (P : LoopP) (j : Nat) : Tensor :=
  let v : Tensor := ⟨P.output.shape, P.randn j⟩
  let f_v : ℚ := tmean (sumDims [P.output.shape.length - 1] (tmul v P.output))
  let f_v_grad : Tensor := P.gradW f_v v
  let approx : Tensor := tsquare f_v_grad
  if 0 < P.sca.length then sumDims P.sca approx else approx

/-- Embedding of `torch.all(torch.abs(delta) / (torch.abs(new_mean) + eps) < tol)`
(line 118-119). -/
def convergedAll (delta new_mean : Tensor) (eps tol : ℚ) : Bool :=
  (allIdx delta.shape).all (fun ix => decide (|delta.entry ix| / (|new_mean.entry ix| + eps) < tol))

/-- Embedding of the iteration loop, lines 100-122 of
`weights_trace_hessian_calculator_pytorch.py`.  `fuel` counts the remaining
iterations of `for j in range(self.num_iterations_for_approximation)`; `acc` is
`approximation_per_iteration`.  After `MIN_HESSIAN_ITER` iterations the convergence
test compares the running mean including the newest sample with the mean excluding
it, and `break`s (returning `acc` without appending) when every element converged. -/
def hessLoop (P : LoopP) : Nat → Nat → List Tensor → List Tensor
  | 0, _, acc => acc
  | fuel + 1, j, acc =>
    let approx := approxAt P j
    if P.minIter < j then
      let new_mean := scalarDiv (tadd (sumStack acc) approx) ((j + 1 : Nat) : ℚ)
      let delta := tsub new_mean (meanStack acc)
      if convergedAll delta new_mean P.eps P.tol then acc
      else hessLoop P fuel (j + 1) (acc ++ [approx])
    else hessLoop P fuel (j + 1) (acc ++ [approx])

/-- A graph node as seen by the calculator: its model attribute name and its layer
type.  (The graph node class is an external collaborator; only these two attributes
are consulted by `compute`.) -/
structure PNode where
  name : String
  type : Nat

/-- The environment of one calculator invocation.  `isKernelOp`,
`kernelOpAttributes` and `kernelChannelsMapping` are the static
`DEFAULT_PYTORCH_INFO` tables; `modelWeight` is the reflective
`getattr(getattr(model, node.name), attribute)` lookup on the built float model;
`modelOutputs` is `model(self.input_images)`; `randn` and `gradW` are the
random-source and autograd oracles described at `LoopP`. -/
structure PTEnv where
  isKernelOp : Nat → Bool
  kernelOpAttributes : Nat → List String
  kernelChannelsMapping : Nat → Nat × Nat
  modelWeight : String → String → Tensor
  modelOutputs : List Tensor
  randn : Nat → List Nat → ℚ
  gradW : ℚ → Tensor → Tensor

/-- The loop parameters that `compute` passes to its iteration loop. -/
def mkLoopP (env : PTEnv) (node : PNode) (granularity : Granularity) (output_tensor : Tensor)
    (minIter : Nat) (eps tol : ℚ) : LoopP :=
  ⟨shapeChannelAxis granularity
      (env.modelWeight node.name (env.kernelOpAttributes node.type).headI).shape
      (env.kernelChannelsMapping node.type).1,
   output_tensor, env.randn, env.gradW, minIter, eps, tol⟩

/-- Embedding of `WeightsTraceHessianCalculatorPytorch.compute` (lines 57-131).
`num_iterations` is `num_iterations_for_approximation`; `minIter`, `eps` and `tol`
are the configuration constants `MIN_HESSIAN_ITER`, `HESSIAN_EPS` and
`HESSIAN_COMP_TOLERANCE` (their numeric values live in `constants.py`, outside the
analysed sources, so they stay parameters).  `Logger.error` aborts are modelled as
`Except.error` (see `HErr`).  The base class's `concat_tensors` (line 97) is also not
among the analysed sources; it is modelled from the spec — reshape each output to
`(batch, -1)`, verify equal batch axes, concatenate along the feature axis — which is
exactly the contract of the keras `_concat_tensors` in the sources, so the one
embedding `concatTensors` is used for it. -/
def compute (env : PTEnv) (node : PNode) (granularity : Granularity)
    (num_iterations minIter : Nat) (eps tol : ℚ) : Except HErr Tensor :=
  if !(env.isKernelOp node.type) then Except.error HErr.unsupportedOp
  else
    let weights_attributes := env.kernelOpAttributes node.type
    if weights_attributes.length ≠ 1 then Except.error HErr.unsupportedTopology
    else
      match concatTensors env.modelOutputs with
      | Except.error e => Except.error e
      | Except.ok output_tensor =>
        let P := mkLoopP env node granularity output_tensor minIter eps tol
        let approximation_per_iteration := hessLoop P num_iterations 0 []
        let final_approx := meanStack approximation_per_iteration
        if granularity = Granularity.PER_TENSOR then Except.ok (reshape1 final_approx)
        else Except.ok final_approx

/-- A graph node as seen by `FrameworkInfo` and the analyzer
(`common/graph/node.py` is an external collaborator; the analysed code consults the
node's `layer_class` and the node's identity). -/
structure Node where
  layer_class : Nat
  deriving DecidableEq

/-- Embedding of `FrameworkInfo` (`common/framework_info.py`).  Layer classes are
identified by naturals.  The quantizer mappings hold opaque callables in the source;
here they are association lists over opaque identifiers, never consulted by the
analysed operations. -/
structure FrameworkInfo where
  kernel_ops : List Nat
  activation_ops : List Nat
  no_quantization_ops : List Nat
  activation_quantizer_mapping : List (Nat × Nat)
  weights_quantizer_mapping : List (Nat × Nat)
  kernel_channels_mapping : Nat → Nat × Nat
  activation_min_max_mapping : List (String × (ℚ × ℚ))
  layer_min_max_mapping : List (Nat × (ℚ × ℚ))

/-- Embedding of `FrameworkInfo.layers_has_min_max`: membership of a layer in the
known min/max table. -/
def FrameworkInfo.layers_has_min_max (self : FrameworkInfo) (layer : Nat) : Bool :=
  decide (layer ∈ self.layer_min_max_mapping.map Prod.fst)

/-- Embedding of `FrameworkInfo.in_kernel_ops`: `n.layer_class in self.kernel_ops`. -/
def FrameworkInfo.in_kernel_ops (self : FrameworkInfo) (n : Node) : Bool :=
  decide (n.layer_class ∈ self.kernel_ops)

/-- Embedding of `FrameworkInfo.in_activation_ops`: `n.layer_class in self.activation_ops`. -/
def FrameworkInfo.in_activation_ops (self : FrameworkInfo) (n : Node) : Bool :=
  decide (n.layer_class ∈ self.activation_ops)

/-- Embedding of `FrameworkInfo.in_no_quantization_ops`:
`n.layer_class in self.no_quantization_ops`. -/
def FrameworkInfo.in_no_quantization_ops (self : FrameworkInfo) (n : Node) : Bool :=
  decide (n.layer_class ∈ self.no_quantization_ops)

/-- A statistics-collection container attached to a node
(`common.StatsContainer` / `common.NoStatsContainer`; the container classes are
external collaborators, only their kind is consulted by the analyzer). -/
inductive Container where
  | noStatsContainer
  | statsContainer
  deriving DecidableEq

/-- The out-stats-collector assignment held by the graph: `none` models a node that
has no collector yet.  `graph.get_out_stats_collector` reads this map and
`graph.set_out_stats_collector_to_node` updates it. -/
def CollectorState : Type := Node → Option Container

/-- Embedding of `create_tensor2node` (`quantization_analyzer.py`, lines 23-34):
when the node's current collector is a `NoStatsContainer` or absent, set a fresh
`StatsContainer`; otherwise leave the state unchanged. -/
def create_tensor2node (st : CollectorState) (node : Node) : CollectorState :=
  let current_tensor := st node
  if current_tensor = some Container.noStatsContainer ∨ current_tensor = none then
    fun m => if m = node then some Container.statsContainer else st m
  else st

/-- The quantization configuration consulted by the analyzer (only the
`weights_bias_correction` flag is read). -/
structure QuantizationConfig where
  weights_bias_correction : Bool

/-- The graph as seen by the analyzer: its topologically sorted node list
(`topological_sort(graph)`) and, per node, the source nodes of its incoming edges
(`graph.incoming_edges(n)`, each edge contributing its `source_node`). -/
structure AGraph where
  topoNodes : List Node
  incomingSources : Node → List Node

/-- One step of the analyzer walk (`analyzer_graph` loop body, lines 55-66): get the
node's statistics tensor from `node_analyze_func`; when bias correction is enabled
and the node is in the kernel-ops group, force-create collectors on all direct
predecessors; finally attach the node's own tensor when one was produced. -/
def analyzeStep (node_analyze_func : Node → Option Container) (graph : AGraph)
    (fw_info : FrameworkInfo) (qc : QuantizationConfig) (st : CollectorState) (n : Node) :
    CollectorState :=
  let t := node_analyze_func n
  let st1 :=
    if qc.weights_bias_correction && fw_info.in_kernel_ops n then
      (graph.incomingSources n).foldl (fun s input_node => create_tensor2node s input_node) st
    else st
  match t with
  | some tc => fun m => if m = n then some tc else st1 m
  | none => st1

/-- Embedding of `analyzer_graph` (`quantization_analyzer.py`, lines 37-66): fold the
per-node step over the topologically sorted nodes. -/
def analyzer_graph (node_analyze_func : Node → Option Container) (graph : AGraph)
    (fw_info : FrameworkInfo) (qc : QuantizationConfig) (st0 : CollectorState) :
    CollectorState :=
  graph.topoNodes.foldl (fun st n => analyzeStep node_analyze_func graph fw_info qc st n) st0

/-! Derived descriptions of the iteration loop's trace, used to state the theorems.
They introduce no behaviour of their own: `hessLoop` is proved equal to them. -/

/-- The weight-tensor shape located by `compute` for the target node (line 85). -/
def targetWeightShape (env : PTEnv) (node : PNode) : List Nat :=
  (env.modelWeight node.name (env.kernelOpAttributes node.type).headI).shape

/-- The output-channel axis located from the framework tables (line 88). -/
def outChannelAxis (env : PTEnv) (node : PNode) : Nat :=
  (env.kernelChannelsMapping node.type).1

/-- The accumulator `approximation_per_iteration` just before iteration `j` of a run
that has not stopped yet: the approximations of iterations `0 .. j-1`. -/
def accAt (P : LoopP) (j : Nat) : List Tensor :=
  (List.range j).map (approxAt P)

/-- The running mean including the newest sample, as formed at line 116 when the
convergence test runs at iteration `j`. -/
def newMeanAt (P : LoopP) (j : Nat) : Tensor :=
  scalarDiv (tadd (sumStack (accAt P j)) (approxAt P j)) ((j + 1 : Nat) : ℚ)

/-- The difference between the running means including and excluding the newest
sample (line 117). -/
def deltaAt (P : LoopP) (j : Nat) : Tensor :=
  tsub (newMeanAt P j) (meanStack (accAt P j))

/-- Whether the loop `break`s at iteration `j`: the convergence test is guarded by
`j > MIN_HESSIAN_ITER` and succeeds when every element satisfies the relative
tolerance test. -/
def stopAt (P : LoopP) (j : Nat) : Bool :=
  decide (P.minIter < j) && convergedAll (deltaAt P j) (newMeanAt P j) P.eps P.tol

/-- The number of iterations the loop executes when started at iteration `j` with
`fuel` iterations left. -/
def runLen (P : LoopP) : Nat → Nat → Nat
  | 0, _ => 0
  | fuel + 1, j => if stopAt P j then 0 else runLen P fuel (j + 1) + 1

/-- Spec-side description of one Hutchinson iteration, written from the words of the
specification (for the refinement stated about claim C2): draw a random vector of
the output's shape, form `f = mean(sum(v * output, axis=feature))`, take the gradient
of `f` w.r.t. the target weight tensor, square it elementwise, and reduce-sum over
all axes except the output-channel axis (`PER_OUTPUT_CHANNEL`), over no axes
(`PER_ELEMENT`), or over all axes (`PER_TENSOR`). -/
def specIterApprox (granularity : Granularity) (wshape : List Nat) (c : Nat) (output : Tensor)
    (randn : Nat → List Nat → ℚ) (gradW : ℚ → Tensor → Tensor) (j : Nat) : Tensor :=
  let v : Tensor := ⟨output.shape, randn j⟩
  let f : ℚ := tmean (sumDims [output.shape.length - 1] (tmul v output))
  let sq : Tensor := tsquare (gradW f v)
  match granularity with
  | Granularity.PER_OUTPUT_CHANNEL =>
      sumDims ((List.range wshape.length).filter (fun i => i != c)) sq
  | Granularity.PER_ELEMENT => sq
  | Granularity.PER_TENSOR => sumDims (List.range wshape.length) sq

/-! Concrete instances used to instantiate the theorems below on closed inputs. -/

/-- A concrete calculator environment: one kernel-bearing operator type with a single
weight attribute, a `(3, 2)` weight tensor with output-channel axis 1, one `(1, 2)`
model output, unit random vectors, and a constant unit gradient oracle. -/
def envC : PTEnv :=
  ⟨fun _ => true, fun _ => ["kernel"], fun _ => (1, 0), fun _ _ => ⟨[3, 2], fun _ => 1⟩,
   [⟨[1, 2], fun _ => 1⟩], fun _ _ => 1, fun _ _ => ⟨[3, 2], fun _ => 1⟩⟩

/-- A concrete environment whose operator type is not kernel-bearing. -/
def envNoKernel : PTEnv :=
  ⟨fun _ => false, fun _ => ["kernel"], fun _ => (1, 0), fun _ _ => ⟨[3, 2], fun _ => 1⟩,
   [⟨[1, 2], fun _ => 1⟩], fun _ _ => 1, fun _ _ => ⟨[3, 2], fun _ => 1⟩⟩

/-- A concrete environment whose operator type carries no weight attribute. -/
def envZeroAttrs : PTEnv :=
  ⟨fun _ => true, fun _ => [], fun _ => (1, 0), fun _ _ => ⟨[3, 2], fun _ => 1⟩,
   [⟨[1, 2], fun _ => 1⟩], fun _ _ => 1, fun _ _ => ⟨[3, 2], fun _ => 1⟩⟩

/-- A concrete environment whose operator type carries two weight attributes. -/
def envTwoAttrs : PTEnv :=
  ⟨fun _ => true, fun _ => ["kernel", "bias"], fun _ => (1, 0), fun _ _ => ⟨[3, 2], fun _ => 1⟩,
   [⟨[1, 2], fun _ => 1⟩], fun _ _ => 1, fun _ _ => ⟨[3, 2], fun _ => 1⟩⟩

/-- The target node used with the concrete environments. -/
def nodeC : PNode := ⟨"conv", 0⟩

/-- The loop parameters `compute` builds in `envC` for a `PER_TENSOR` request with
`MIN_HESSIAN_ITER = 0`, `HESSIAN_EPS = 1/100`, `HESSIAN_COMP_TOLERANCE = 1/100`.
Because `envC`'s gradient oracle is constant, the running means agree from the second
iteration on and the loop converges at iteration 1. -/
def PC : LoopP :=
  mkLoopP envC nodeC Granularity.PER_TENSOR
    (concatAxis1 (envC.modelOutputs.map reshapeBatchFlat)) 0 (1/100) (1/100)

/-- A concrete two-node analyzer graph: node `1` has node `0` as its predecessor. -/
def sampleGraph : AGraph :=
  ⟨[⟨0⟩, ⟨1⟩], fun n => if n = ⟨1⟩ then [⟨0⟩] else []⟩

/-- A concrete framework-info table whose kernel-ops group is `{1}`. -/
def sampleFI : FrameworkInfo := ⟨[1], [], [], [], [], fun _ => (0, 0), [], []⟩

/-! Helper lemmas about `keepNotIn`, `allIdx` and the elementary tensor operations. -/

theorem keepNotIn_all_mem (dims : List Nat) :
    ∀ (k : Nat) (s : List Nat), (∀ i, i < s.length → k + i ∈ dims) → keepNotIn dims k s = [] := by
  intro k s
  induction s generalizing k with
  | nil => intro _; rfl
  | cons a as ih =>
    intro h
    have h0 : k ∈ dims := by simpa using h 0 (Nat.succ_pos _)
    have hrest : keepNotIn dims (k + 1) as = [] := by
      apply ih
      intro i hi
      have := h (i + 1) (by simpa using Nat.succ_lt_succ hi)
      simpa [Nat.add_assoc, Nat.add_comm 1 i] using this
    simp [keepNotIn, h0, hrest]

theorem keepNotIn_none_mem (dims : List Nat) :
    ∀ (k : Nat) (s : List Nat), (∀ i, i < s.length → k + i ∉ dims) → keepNotIn dims k s = s := by
  intro k s
  induction s generalizing k with
  | nil => intro _; rfl
  | cons a as ih =>
    intro h
    have h0 : k ∉ dims := by simpa using h 0 (Nat.succ_pos _)
    have hrest : keepNotIn dims (k + 1) as = as := by
      apply ih
      intro i hi
      have := h (i + 1) (by simpa using Nat.succ_lt_succ hi)
      simpa [Nat.add_assoc, Nat.add_comm 1 i] using this
    simp [keepNotIn, h0, hrest]

theorem keepNotIn_nil_dims (k : Nat) (s : List Nat) : keepNotIn [] k s = s :=
  keepNotIn_none_mem [] k s (by intro i _ h; simp at h)

theorem keepNotIn_single (dims : List Nat) :
    ∀ (k c : Nat) (s : List Nat), c < s.length →
      (∀ i, i < s.length → (k + i ∈ dims ↔ i ≠ c)) →
      keepNotIn dims k s = [s.getD c 0] := by
  intro k c s
  induction s generalizing k c with
  | nil => intro hc; simp at hc
  | cons a as ih =>
    intro hc h
    cases c with
    | zero =>
      have h0 : k ∉ dims := by
        have := h 0 (Nat.succ_pos _)
        simp at this
        simpa using this
      have hrest : keepNotIn dims (k + 1) as = [] := by
        apply keepNotIn_all_mem
        intro i hi
        have := h (i + 1) (by simpa using Nat.succ_lt_succ hi)
        have h2 : k + (i + 1) ∈ dims := this.mpr (by omega)
        simpa [Nat.add_assoc, Nat.add_comm 1 i] using h2
      simp [keepNotIn, h0, hrest]
    | succ c' =>
      have h0 : k ∈ dims := by
        have := h 0 (Nat.succ_pos _)
        simp at this
        exact this
      have hrest : keepNotIn dims (k + 1) as = [as.getD c' 0] := by
        apply ih
        · simpa using Nat.lt_of_succ_lt_succ hc
        · intro i hi
          have := h (i + 1) (by simpa using Nat.succ_lt_succ hi)
          constructor
          · intro hm
            have := this.mp (by simpa [Nat.add_assoc, Nat.add_comm 1 i] using hm)
            omega
          · intro hne
            have h2 := this.mpr (by omega)
            simpa [Nat.add_assoc, Nat.add_comm 1 i] using h2
      simp [keepNotIn, h0, hrest]

theorem keepNotIn_range (s : List Nat) : keepNotIn (List.range s.length) 0 s = [] := by
  apply keepNotIn_all_mem
  intro i hi
  simpa using hi

theorem keepNotIn_erase (s : List Nat) (c : Nat) (hc : c < s.length) :
    keepNotIn ((List.range s.length).erase c) 0 s = [s.getD c 0] := by
  apply keepNotIn_single
  · exact hc
  · intro i hi
    rw [List.Nodup.mem_erase_iff (List.nodup_range _)]
    simp [hi]

theorem allIdx_nodup : ∀ s : List Nat, (allIdx s).Nodup := by
  intro s
  induction s with
  | nil => simp [allIdx]
  | cons d ds ih =>
    rw [allIdx]
    rw [List.nodup_flatMap]
    constructor
    · intro i _
      exact ih.map (fun ix ix' h => by simpa using h)
    · have : ∀ i j : Nat, i ≠ j →
          ((allIdx ds).map (fun ix => i :: ix)).Disjoint ((allIdx ds).map (fun ix => j :: ix)) := by
        intro i j hij x hxi hxj
        rcases List.mem_map.mp hxi with ⟨ti, _, rfl⟩
        rcases List.mem_map.mp hxj with ⟨tj, _, he⟩
        injection he with h1 h2
        exact hij h1.symm
      exact List.Pairwise.imp (fun hij => this _ _ hij) (List.nodup_range d)

theorem filter_eq_single {α : Type} [DecidableEq α] :
    ∀ (l : List α) (a : α), l.Nodup → a ∈ l → l.filter (fun x => decide (x = a)) = [a] := by
  intro l a
  induction l with
  | nil => intro _ h; simp at h
  | cons b bs ih =>
    intro hnd hmem
    rcases List.mem_cons.mp hmem with h | h
    · subst h
      have hnotin : a ∉ bs := (List.nodup_cons.mp hnd).1
      have : bs.filter (fun x => decide (x = a)) = [] := by
        rw [List.filter_eq_nil_iff]
        intro x hx
        simp only [decide_eq_true_iff]
        intro he
        exact hnotin (he ▸ hx)
      simp [List.filter, this]
    · have hne : b ≠ a := by
        rintro rfl
        exact (List.nodup_cons.mp hnd).1 h
      have := ih (List.nodup_cons.mp hnd).2 h
      simp [List.filter, hne, this]

theorem sumDims_shape (dims : List Nat) (t : Tensor) :
    (sumDims dims t).shape = keepNotIn dims 0 t.shape := rfl

theorem sumDims_nil_entry (t : Tensor) (m : List Nat) (hm : m ∈ allIdx t.shape) :
    (sumDims [] t).entry m = t.entry m := by
  have hpred : ∀ ix ∈ allIdx t.shape,
      decide (keepNotIn [] 0 ix = m) = decide (ix = m) := by
    intro ix _
    rw [keepNotIn_nil_dims]
  rw [sumDims]
  simp only
  rw [List.filter_congr hpred, filter_eq_single _ _ (allIdx_nodup _) hm]
  simp

theorem sumDims_entry_nonneg (dims : List Nat) (t : Tensor)
    (h : ∀ ix, 0 ≤ t.entry ix) (m : List Nat) : 0 ≤ (sumDims dims t).entry m := by
  apply List.sum_nonneg
  intro q hq
  rcases List.mem_map.mp hq with ⟨ix, _, rfl⟩
  exact h ix

theorem tsquare_entry_nonneg (t : Tensor) (ix : List Nat) : 0 ≤ (tsquare t).entry ix :=
  sq_nonneg _

theorem approxAt_entry_nonneg (P : LoopP) (j : Nat) (ix : List Nat) :
    0 ≤ (approxAt P j).entry ix := by
  simp only [approxAt]
  split
  · exact sumDims_entry_nonneg _ _ (fun ix' => tsquare_entry_nonneg _ ix') ix
  · exact tsquare_entry_nonneg _ ix

theorem meanStack_entry_nonneg (ts : List Tensor)
    (h : ∀ t ∈ ts, ∀ ix, 0 ≤ t.entry ix) (ix : List Nat) : 0 ≤ (meanStack ts).entry ix := by
  apply div_nonneg
  · apply List.sum_nonneg
    intro q hq
    rcases List.mem_map.mp hq with ⟨t, ht, rfl⟩
    exact h t ht ix
  · exact Nat.cast_nonneg _

theorem approxAt_shape (P : LoopP) (j : Nat) (ws : List Nat)
    (hg : ∀ q v, (P.gradW q v).shape = ws) :
    (approxAt P j).shape = if 0 < P.sca.length then keepNotIn P.sca 0 ws else ws := by
  simp only [approxAt]
  split
  · rw [sumDims_shape]
    simp [tsquare, hg]
  · simp [tsquare, hg]

theorem accAt_succ (P : LoopP) (j : Nat) :
    accAt P (j + 1) = accAt P j ++ [approxAt P j] := by
  rw [accAt, accAt, List.range_succ, List.map_append]
  rfl

theorem accAt_length (P : LoopP) (j : Nat) : (accAt P j).length = j := by
  simp [accAt]

theorem accAt_mem_shape (P : LoopP) (j : Nat) (ws : List Nat)
    (hg : ∀ q v, (P.gradW q v).shape = ws) :
    ∀ t ∈ accAt P j, t.shape = if 0 < P.sca.length then keepNotIn P.sca 0 ws else ws := by
  intro t ht
  rcases List.mem_map.mp ht with ⟨i, _, rfl⟩
  exact approxAt_shape P i ws hg

theorem accAt_headI_shape (P : LoopP) (j : Nat) (hj : 0 < j) :
    (accAt P j).headI = approxAt P 0 := by
  rcases Nat.exists_eq_add_of_lt hj with ⟨k, hk⟩
  subst hk
  rw [accAt, List.range_succ_eq_map]
  simp

theorem stopAt_of_le_minIter (P : LoopP) (j : Nat) (hj : j ≤ P.minIter) :
    stopAt P j = false := by
  rw [stopAt]
  have : decide (P.minIter < j) = false := by
    simp
    omega
  rw [this]
  rfl

theorem stopAt_zero (P : LoopP) : stopAt P 0 = false :=
  stopAt_of_le_minIter P 0 (Nat.zero_le _)

theorem hessLoop_eq_accAt (P : LoopP) :
    ∀ (fuel j : Nat), hessLoop P fuel j (accAt P j) = accAt P (j + runLen P fuel j) := by
  intro fuel
  induction fuel with
  | zero => intro j; simp [hessLoop, runLen]
  | succ fuel ih =>
    intro j
    rw [hessLoop, runLen]
    show (if P.minIter < j then
            if convergedAll (deltaAt P j) (newMeanAt P j) P.eps P.tol = true then accAt P j
            else hessLoop P fuel (j + 1) (accAt P j ++ [approxAt P j])
          else hessLoop P fuel (j + 1) (accAt P j ++ [approxAt P j])) =
        accAt P (j + if stopAt P j = true then 0 else runLen P fuel (j + 1) + 1)
    by_cases hj : P.minIter < j
    · rw [if_pos hj]
      by_cases hc : convergedAll (deltaAt P j) (newMeanAt P j) P.eps P.tol = true
      · rw [if_pos hc]
        have hs : stopAt P j = true := by
          rw [stopAt, hc]
          simp [hj]
        rw [if_pos hs]
        simp
      · rw [if_neg hc]
        have hs : stopAt P j = false := by
          rw [stopAt]
          simp only [Bool.and_eq_false_iff]
          right
          simpa using hc
        rw [hs]
        simp only [Bool.false_eq_true, if_false]
        rw [← accAt_succ, ih (j + 1)]
        congr 1
        omega
    · rw [if_neg hj]
      have hs : stopAt P j = false := by
        rw [stopAt]
        simp [hj]
      rw [hs]
      simp only [Bool.false_eq_true, if_false]
      rw [← accAt_succ, ih (j + 1)]
      congr 1
      omega

theorem runLen_le (P : LoopP) : ∀ (fuel j : Nat), runLen P fuel j ≤ fuel := by
  intro fuel
  induction fuel with
  | zero => intro j; simp [runLen]
  | succ fuel ih =>
    intro j
    rw [runLen]
    split
    · exact Nat.zero_le _
    · exact Nat.succ_le_succ (ih (j + 1))

theorem runLen_stop (P : LoopP) :
    ∀ (fuel j : Nat), runLen P fuel j < fuel → stopAt P (j + runLen P fuel j) = true := by
  intro fuel
  induction fuel with
  | zero => intro j h; omega
  | succ fuel ih =>
    intro j h
    rw [runLen] at h ⊢
    by_cases hs : stopAt P j = true
    · rw [if_pos hs]
      simpa using hs
    · rw [if_neg hs] at h ⊢
      have := ih (j + 1) (by omega)
      have harr : j + (runLen P fuel (j + 1) + 1) = (j + 1) + runLen P fuel (j + 1) := by omega
      rw [harr]
      exact this

theorem runLen_no_stop (P : LoopP) :
    ∀ (fuel j i : Nat), i < runLen P fuel j → stopAt P (j + i) = false := by
  intro fuel
  induction fuel with
  | zero => intro j i h; simp [runLen] at h
  | succ fuel ih =>
    intro j i h
    rw [runLen] at h
    by_cases hs : stopAt P j = true
    · simp [hs] at h
    · rw [if_neg hs] at h
      cases i with
      | zero => simpa using hs
      | succ i =>
        have := ih (j + 1) i (by omega)
        have harr : j + (i + 1) = (j + 1) + i := by omega
        rw [harr]
        exact this

theorem runLen_eq_fuel (P : LoopP) :
    ∀ (fuel j : Nat), (∀ i, i < fuel → stopAt P (j + i) = false) → runLen P fuel j = fuel := by
  intro fuel
  induction fuel with
  | zero => intro j _; rfl
  | succ fuel ih =>
    intro j h
    rw [runLen]
    have h0 : stopAt P j = false := by simpa using h 0 (Nat.succ_pos _)
    rw [h0]
    simp only [Bool.false_eq_true, if_false]
    have := ih (j + 1) (by
      intro i hi
      have := h (i + 1) (by omega)
      have harr : (j + 1) + i = j + (i + 1) := by omega
      rw [harr]
      exact this)
    omega

theorem runLen_of_pattern (P : LoopP) :
    ∀ (fuel j k : Nat), (∀ i, i < k → stopAt P (j + i) = false) → stopAt P (j + k) = true →
      k < fuel → runLen P fuel j = k := by
  intro fuel j k hno hstop hk
  rcases Nat.lt_trichotomy (runLen P fuel j) k with h | h | h
  · exfalso
    have := runLen_stop P fuel j (by omega)
    rw [hno _ h] at this
    simp at this
  · exact h
  · exfalso
    have := runLen_no_stop P fuel j k h
    rw [hstop] at this
    simp at this

theorem runLen_pos (P : LoopP) (fuel : Nat) (h : 0 < fuel) : 0 < runLen P fuel 0 := by
  cases fuel with
  | zero => omega
  | succ fuel =>
    rw [runLen, stopAt_zero]
    simp

theorem reshapeBatchFlat_shape_headI (t : Tensor) :
    (reshapeBatchFlat t).shape.headI = t.shape.headI := rfl

theorem map_shape_headI (ts : List Tensor) :
    (ts.map (fun t => t.shape.headI)).headI = ts.headI.shape.headI := by
  cases ts with
  | nil => rfl
  | cons a as => rfl

theorem reshape_map_headI (ts : List Tensor) :
    (ts.map reshapeBatchFlat).map (fun o => o.shape.headI) = ts.map (fun t => t.shape.headI) := by
  rw [List.map_map]
  rfl

theorem concatTensors_error_iff (ts : List Tensor) :
    concatTensors ts = Except.error HErr.shapeMismatch ↔
      ∃ t ∈ ts, t.shape.headI ≠ ts.headI.shape.headI := by
  rw [concatTensors]
  simp only [reshape_map_headI, map_shape_headI]
  by_cases hbb : (ts.map (fun t => t.shape.headI)).all
      (fun d => decide (d = ts.headI.shape.headI)) = true
  · rw [if_neg (by rw [hbb]; simp)]
    apply iff_of_false
    · intro he
      exact Except.noConfusion he
    · rintro ⟨t, ht, hne⟩
      rw [List.all_eq_true] at hbb
      exact hne (by simpa using hbb (t.shape.headI) (List.mem_map.mpr ⟨t, ht, rfl⟩))
  · have hf : (ts.map (fun t => t.shape.headI)).all
        (fun d => decide (d = ts.headI.shape.headI)) = false := by
      rcases Bool.eq_false_or_eq_true ((ts.map (fun t => t.shape.headI)).all
          (fun d => decide (d = ts.headI.shape.headI))) with hx | hx
      · exact absurd hx hbb
      · exact hx
    rw [if_pos (by rw [hf]; simp)]
    apply iff_of_true rfl
    rw [List.all_eq_false] at hf
    rcases hf with ⟨x, hx, hne⟩
    rcases List.mem_map.mp hx with ⟨t, ht, rfl⟩
    exact ⟨t, ht, by simpa using hne⟩

theorem concatTensors_ok (ts : List Tensor)
    (h : ∀ t ∈ ts, t.shape.headI = ts.headI.shape.headI) :
    concatTensors ts = Except.ok (concatAxis1 (ts.map reshapeBatchFlat)) := by
  have hbb : (ts.map (fun t => t.shape.headI)).all
      (fun d => decide (d = ts.headI.shape.headI)) = true := by
    rw [List.all_eq_true]
    intro x hx
    rcases List.mem_map.mp hx with ⟨t, ht, rfl⟩
    simpa using h t ht
  rw [concatTensors]
  simp only [reshape_map_headI, map_shape_headI]
  rw [if_neg (by rw [hbb]; simp)]

theorem concatAxis1_reshape_shape (ts : List Tensor) :
    (concatAxis1 (ts.map reshapeBatchFlat)).shape =
      [ts.headI.shape.headI, (ts.map (fun t => t.shape.tail.prod)).sum] := by
  rw [concatAxis1]
  have h1 : (ts.map reshapeBatchFlat).headI.shape.headI = ts.headI.shape.headI := by
    cases ts with
    | nil => rfl
    | cons a as => rfl
  have h2 : (ts.map reshapeBatchFlat).map (fun t => t.shape.getD 1 0) =
      ts.map (fun t => t.shape.tail.prod) := by
    rw [List.map_map]
    rfl
  rw [h1, h2]

theorem compute_ok_eq (env : PTEnv) (node : PNode) (granularity : Granularity)
    (num_iterations minIter : Nat) (eps tol : ℚ) (out : Tensor)
    (hk : env.isKernelOp node.type = true)
    (ha : (env.kernelOpAttributes node.type).length = 1)
    (hcc : concatTensors env.modelOutputs = Except.ok out) :
    compute env node granularity num_iterations minIter eps tol =
      if granularity = Granularity.PER_TENSOR then
        Except.ok (reshape1 (meanStack (accAt (mkLoopP env node granularity out minIter eps tol)
          (runLen (mkLoopP env node granularity out minIter eps tol) num_iterations 0))))
      else
        Except.ok (meanStack (accAt (mkLoopP env node granularity out minIter eps tol)
          (runLen (mkLoopP env node granularity out minIter eps tol) num_iterations 0))) := by
  have hrun : hessLoop (mkLoopP env node granularity out minIter eps tol) num_iterations 0 [] =
      accAt (mkLoopP env node granularity out minIter eps tol)
        (runLen (mkLoopP env node granularity out minIter eps tol) num_iterations 0) := by
    have h0 : accAt (mkLoopP env node granularity out minIter eps tol) 0 = [] := by
      simp [accAt]
    have h := hessLoop_eq_accAt (mkLoopP env node granularity out minIter eps tol) num_iterations 0
    rw [h0] at h
    simpa using h
  simp only [compute]
  rw [if_neg (by rw [hk]; simp)]
  rw [if_neg (by rw [ha]; simp)]
  rw [hcc]
  simp only [hrun]

theorem hessLoop_zero_start (P : LoopP) (fuel : Nat) :
    hessLoop P fuel 0 [] = accAt P (runLen P fuel 0) := by
  have h0 : accAt P 0 = [] := by simp [accAt]
  have h := hessLoop_eq_accAt P fuel 0
  rw [h0] at h
  simpa using h

theorem compute_error_of_not_kernel (env : PTEnv) (node : PNode) (granularity : Granularity)
    (num_iterations minIter : Nat) (eps tol : ℚ)
    (h : env.isKernelOp node.type = false) :
    compute env node granularity num_iterations minIter eps tol =
      Except.error HErr.unsupportedOp := by
  simp only [compute]
  rw [if_pos (by rw [h]; rfl)]

theorem compute_error_of_attrs (env : PTEnv) (node : PNode) (granularity : Granularity)
    (num_iterations minIter : Nat) (eps tol : ℚ)
    (hk : env.isKernelOp node.type = true)
    (ha : (env.kernelOpAttributes node.type).length ≠ 1) :
    compute env node granularity num_iterations minIter eps tol =
      Except.error HErr.unsupportedTopology := by
  simp only [compute]
  rw [if_neg (by rw [hk]; simp)]
  rw [if_pos ha]

theorem compute_error_of_concat (env : PTEnv) (node : PNode) (granularity : Granularity)
    (num_iterations minIter : Nat) (eps tol : ℚ) (e : HErr)
    (hk : env.isKernelOp node.type = true)
    (ha : (env.kernelOpAttributes node.type).length = 1)
    (hcc : concatTensors env.modelOutputs = Except.error e) :
    compute env node granularity num_iterations minIter eps tol = Except.error e := by
  simp only [compute]
  rw [if_neg (by rw [hk]; simp)]
  rw [if_neg (by rw [ha]; simp)]
  rw [hcc]

theorem meanStack_accAt_shape (P : LoopP) (m : Nat) (hm : 0 < m) (ws : List Nat)
    (hg : ∀ q v, (P.gradW q v).shape = ws) :
    (meanStack (accAt P m)).shape = if 0 < P.sca.length then keepNotIn P.sca 0 ws else ws := by
  show (accAt P m).headI.shape = _
  rw [accAt_headI_shape P m hm]
  exact approxAt_shape P 0 ws hg

theorem approxAt_spec (P : LoopP) (granularity : Granularity) (ws : List Nat) (c : Nat) (j : Nat)
    (hsca : P.sca = shapeChannelAxis granularity ws c) :
    (approxAt P j).shape = (specIterApprox granularity ws c P.output P.randn P.gradW j).shape ∧
    ∀ ix ∈ allIdx (approxAt P j).shape,
      (approxAt P j).entry ix =
        (specIterApprox granularity ws c P.output P.randn P.gradW j).entry ix := by
  have herase : (List.range ws.length).erase c = (List.range ws.length).filter (fun i => i != c) :=
    List.Nodup.erase_eq_filter (List.nodup_range _) c
  cases granularity with
  | PER_ELEMENT =>
    simp only [approxAt, specIterApprox, hsca, shapeChannelAxis]
    simp only [List.length_nil, Nat.lt_irrefl, if_false]
    exact ⟨trivial, fun ix _ => trivial⟩
  | PER_TENSOR =>
    simp only [approxAt, specIterApprox, hsca, shapeChannelAxis]
    by_cases hn : 0 < ws.length
    · rw [if_pos (by simpa using hn)]
      exact ⟨rfl, fun ix _ => rfl⟩
    · have hws : ws.length = 0 := by omega
      rw [hws]
      simp only [List.range_zero, List.length_nil, Nat.lt_irrefl, if_false]
      constructor
      · rw [sumDims_shape, keepNotIn_nil_dims]
      · intro ix hix
        exact (sumDims_nil_entry _ ix hix).symm
  | PER_OUTPUT_CHANNEL =>
    simp only [approxAt, specIterApprox, hsca, shapeChannelAxis]
    rw [← herase]
    by_cases hn : 0 < ((List.range ws.length).erase c).length
    · rw [if_pos hn]
      exact ⟨rfl, fun ix _ => rfl⟩
    · have hnil : (List.range ws.length).erase c = [] := by
        rcases h : (List.range ws.length).erase c with _ | ⟨a, as⟩
        · rfl
        · rw [h] at hn
          simp at hn
      rw [hnil]
      simp only [List.length_nil, Nat.lt_irrefl, if_false]
      constructor
      · rw [sumDims_shape, keepNotIn_nil_dims]
      · intro ix hix
        exact (sumDims_nil_entry _ ix hix).symm

theorem create_tensor2node_other (st : CollectorState) (p q : Node) (h : q ≠ p) :
    create_tensor2node st p q = st q := by
  rw [create_tensor2node]
  split
  · exact if_neg h
  · rfl

theorem create_tensor2node_self (st : CollectorState) (p : Node) :
    create_tensor2node st p p = some Container.statsContainer := by
  rw [create_tensor2node]
  split
  · exact if_pos rfl
  · rename_i h
    rcases hsp : st p with _ | c
    · exact absurd (Or.inr hsp) h
    · cases c with
      | noStatsContainer => exact absurd (Or.inl hsp) h
      | statsContainer => rfl

theorem foldl_ctn_stats (l : List Node) :
    ∀ (st : CollectorState) (q : Node), st q = some Container.statsContainer →
      (l.foldl (fun s x => create_tensor2node s x) st) q = some Container.statsContainer := by
  induction l with
  | nil => intro st q h; exact h
  | cons x xs ih =>
    intro st q h
    apply ih
    show create_tensor2node st x q = some Container.statsContainer
    by_cases hq : q = x
    · subst hq
      exact create_tensor2node_self st q
    · rw [create_tensor2node_other st x q hq]
      exact h

theorem foldl_ctn_mem (l : List Node) :
    ∀ (st : CollectorState) (p : Node), p ∈ l →
      (l.foldl (fun s x => create_tensor2node s x) st) p = some Container.statsContainer := by
  induction l with
  | nil => intro st p hp; simp at hp
  | cons x xs ih =>
    intro st p hp
    rcases List.mem_cons.mp hp with h | h
    · subst h
      exact foldl_ctn_stats xs _ p (create_tensor2node_self st p)
    · exact ih _ p h

theorem analyzeStep_pred (f : Node → Option Container) (g : AGraph) (fi : FrameworkInfo)
    (qc : QuantizationConfig) (st : CollectorState) (n p : Node)
    (hw : qc.weights_bias_correction = true) (hk : fi.in_kernel_ops n = true)
    (hp : p ∈ g.incomingSources n) (hne : p ≠ n) :
    analyzeStep f g fi qc st n p = some Container.statsContainer := by
  rw [analyzeStep]
  simp only [hw, hk, Bool.and_self, if_true]
  rcases hf : f n with _ | tc
  · exact foldl_ctn_mem _ st p hp
  · show (if p = n then some tc else _) = _
    rw [if_neg hne]
    exact foldl_ctn_mem _ st p hp

theorem approxAt_const (P : LoopP) (a : Tensor) (hg : ∀ q v, P.gradW q v = a) (i : Nat) :
    approxAt P i = if 0 < P.sca.length then sumDims P.sca (tsquare a) else tsquare a := by
  simp only [approxAt, hg]

theorem const_grad_stopAt (P : LoopP) (a : Tensor) (hg : ∀ q v, P.gradW q v = a)
    (j : Nat) (hj : P.minIter < j) (hj0 : 0 < j) (htol : 0 < P.tol) :
    stopAt P j = true := by
  have hconst : ∀ i, approxAt P i =
      if 0 < P.sca.length then sumDims P.sca (tsquare a) else tsquare a :=
    approxAt_const P a hg
  rw [stopAt, Bool.and_eq_true]
  refine ⟨by simpa using hj, ?_⟩
  rw [convergedAll, List.all_eq_true]
  intro ix _
  rw [decide_eq_true_iff]
  have hmap : (accAt P j).map (fun t => t.entry ix) =
      List.replicate j (((if 0 < P.sca.length then sumDims P.sca (tsquare a)
        else tsquare a)).entry ix) := by
    rw [List.eq_replicate_iff]
    constructor
    · rw [List.length_map, accAt_length]
    · intro b hb
      rcases List.mem_map.mp hb with ⟨t, ht, rfl⟩
      rcases List.mem_map.mp ht with ⟨i, _, rfl⟩
      rw [hconst i]
  have hδ : (deltaAt P j).entry ix = 0 := by
    show (newMeanAt P j).entry ix - (meanStack (accAt P j)).entry ix = 0
    have h1 : (sumStack (accAt P j)).entry ix = (j : ℚ) *
        ((if 0 < P.sca.length then sumDims P.sca (tsquare a) else tsquare a)).entry ix := by
      show ((accAt P j).map (fun t => t.entry ix)).sum = _
      rw [hmap, List.sum_replicate, nsmul_eq_mul]
    have h2 : (meanStack (accAt P j)).entry ix = ((j : ℚ) *
        ((if 0 < P.sca.length then sumDims P.sca (tsquare a) else tsquare a)).entry ix) /
          (j : ℚ) := by
      show ((accAt P j).map (fun t => t.entry ix)).sum / (((accAt P j).length : Nat) : ℚ) = _
      rw [hmap, List.sum_replicate, nsmul_eq_mul, accAt_length]
    have h3 : (newMeanAt P j).entry ix = ((j : ℚ) *
        ((if 0 < P.sca.length then sumDims P.sca (tsquare a) else tsquare a)).entry ix +
        ((if 0 < P.sca.length then sumDims P.sca (tsquare a) else tsquare a)).entry ix) /
          ((j : ℚ) + 1) := by
      show ((sumStack (accAt P j)).entry ix + (approxAt P j).entry ix) /
          (((j + 1 : Nat)) : ℚ) = _
      rw [h1, hconst j]
      push_cast
      ring_nf
    rw [h3, h2]
    have hjq : (j : ℚ) ≠ 0 := Nat.cast_ne_zero.mpr (by omega)
    have hjq1 : (j : ℚ) + 1 ≠ 0 := by positivity
    field_simp
    ring
  rw [hδ, abs_zero, zero_div]
  exact htol

theorem mkLoopP_sca (env : PTEnv) (node : PNode) (granularity : Granularity) (out : Tensor)
    (minIter : Nat) (eps tol : ℚ) :
    (mkLoopP env node granularity out minIter eps tol).sca =
      shapeChannelAxis granularity (targetWeightShape env node) (outChannelAxis env node) := rfl

/-! The claim theorems. -/

/-- C4: for every WEIGHTS-mode request whose target node is not in the kernel-bearing
operator group, `compute` reports a fatal configuration error (the unsupported-operator
error) and aborts without returning a score. -/
theorem c4_unsupported_op_fatal (env : PTEnv) (node : PNode) (granularity : Granularity)
    (num_iterations minIter : Nat) (eps tol : ℚ)
    (h : env.isKernelOp node.type = false) :
    compute env node granularity num_iterations minIter eps tol =
      Except.error HErr.unsupportedOp :=
  compute_error_of_not_kernel env node granularity num_iterations minIter eps tol h

/-- Witness for C4: a concrete non-kernel-bearing node aborts with the
unsupported-operator error. -/
theorem c4_unsupported_op_fatal_witness :
    compute envNoKernel nodeC Granularity.PER_TENSOR 1 0 (1/100) (1/100) =
      Except.error HErr.unsupportedOp :=
  c4_unsupported_op_fatal envNoKernel nodeC Granularity.PER_TENSOR 1 0 (1/100) (1/100) rfl

/-- C5: a WEIGHTS-mode request whose target node has zero or more than one learnable
weight attribute is rejected with a fatal error and produces no score; computation
proceeds (returns a score) only when the node has exactly one weight attribute. -/
theorem c5_single_weight_attribute (env : PTEnv) (node : PNode) (granularity : Granularity)
    (num_iterations minIter : Nat) (eps tol : ℚ)
    (hk : env.isKernelOp node.type = true) :
    ((env.kernelOpAttributes node.type).length ≠ 1 →
      compute env node granularity num_iterations minIter eps tol =
        Except.error HErr.unsupportedTopology) ∧
    (∀ r, compute env node granularity num_iterations minIter eps tol = Except.ok r →
      (env.kernelOpAttributes node.type).length = 1) := by
  constructor
  · intro hne
    exact compute_error_of_attrs env node granularity num_iterations minIter eps tol hk hne
  · intro r hok
    by_contra hne
    rw [compute_error_of_attrs env node granularity num_iterations minIter eps tol hk hne] at hok
    exact Except.noConfusion hok

/-- Witness for C5: concrete nodes with zero and with two weight attributes are both
rejected with the unsupported-topology error. -/
theorem c5_single_weight_attribute_witness :
    compute envZeroAttrs nodeC Granularity.PER_TENSOR 1 0 (1/100) (1/100) =
      Except.error HErr.unsupportedTopology ∧
    compute envTwoAttrs nodeC Granularity.PER_TENSOR 1 0 (1/100) (1/100) =
      Except.error HErr.unsupportedTopology :=
  ⟨(c5_single_weight_attribute envZeroAttrs nodeC Granularity.PER_TENSOR 1 0 (1/100) (1/100)
      rfl).1 (by decide),
   (c5_single_weight_attribute envTwoAttrs nodeC Granularity.PER_TENSOR 1 0 (1/100) (1/100)
      rfl).1 (by decide)⟩

/-- C9: `in_kernel_ops`, `in_activation_ops` and `in_no_quantization_ops` are pure
membership tests of the node's layer class in the corresponding configured operator
list, and no disjointness is enforced: a `FrameworkInfo` whose lists overlap makes two
of the tests return true for the same node. -/
theorem c9_membership_no_disjointness :
    (∀ (fi : FrameworkInfo) (n : Node),
       (fi.in_kernel_ops n = true ↔ n.layer_class ∈ fi.kernel_ops) ∧
       (fi.in_activation_ops n = true ↔ n.layer_class ∈ fi.activation_ops) ∧
       (fi.in_no_quantization_ops n = true ↔ n.layer_class ∈ fi.no_quantization_ops)) ∧
    (∃ (fi : FrameworkInfo) (n : Node),
       fi.in_kernel_ops n = true ∧ fi.in_activation_ops n = true) := by
  constructor
  · intro fi n
    refine ⟨?_, ?_, ?_⟩
    · simp [FrameworkInfo.in_kernel_ops]
    · simp [FrameworkInfo.in_activation_ops]
    · simp [FrameworkInfo.in_no_quantization_ops]
  · exact ⟨⟨[0], [0], [], [], [], fun _ => (0, 0), [], []⟩, ⟨0⟩, rfl, rfl⟩

/-- C8: walking the graph in topological order with weights-bias correction enabled,
the analyzer force-creates a statistics placeholder on every direct predecessor of
each kernel-bearing node; `create_tensor2node` creates one exactly when the
predecessor has no collector or a no-stats placeholder, and leaves a state with an
existing real collector unchanged. -/
theorem c8_bias_correction_placeholders (f : Node → Option Container) (g : AGraph)
    (fi : FrameworkInfo) (qc : QuantizationConfig) (st0 : CollectorState) :
    (analyzer_graph f g fi qc st0 = g.topoNodes.foldl (analyzeStep f g fi qc) st0) ∧
    (∀ (st : CollectorState) (p : Node),
       (st p = none ∨ st p = some Container.noStatsContainer) →
       create_tensor2node st p p = some Container.statsContainer) ∧
    (∀ (st : CollectorState) (p : Node),
       st p = some Container.statsContainer → create_tensor2node st p = st) ∧
    (∀ (st : CollectorState) (n p : Node),
       qc.weights_bias_correction = true → fi.in_kernel_ops n = true →
       p ∈ g.incomingSources n → p ≠ n →
       analyzeStep f g fi qc st n p = some Container.statsContainer) := by
  refine ⟨rfl, ?_, ?_, ?_⟩
  · intro st p _
    exact create_tensor2node_self st p
  · intro st p h
    rw [create_tensor2node]
    rw [if_neg]
    rw [h]
    simp
  · intro st n p hw hk hp hne
    exact analyzeStep_pred f g fi qc st n p hw hk hp hne

/-- Witness for C8: in a concrete two-node graph with bias correction enabled, the
step at the kernel-bearing node installs a stats placeholder on its predecessor. -/
theorem c8_bias_correction_placeholders_witness :
    analyzeStep (fun _ => none) sampleGraph sampleFI ⟨true⟩ (fun _ => none) ⟨1⟩ ⟨0⟩ =
      some Container.statsContainer :=
  (c8_bias_correction_placeholders (fun _ => none) sampleGraph sampleFI ⟨true⟩
      (fun _ => none)).2.2.2 (fun _ => none) ⟨1⟩ ⟨0⟩ rfl rfl (by decide) (by decide)

/-- C6: the output-concatenation step reshapes every model output to `(batch, -1)`
and concatenates along the feature axis; whenever the batch-axis (first-axis) lengths
disagree it fails fatally with the shape-mismatch error, and inside `compute` that
failure surfaces before any gradient computation influences the result. -/
theorem c6_concat_shape_mismatch (ts : List Tensor) (_hne : ∀ t ∈ ts, t.shape ≠ []) :
    (concatTensors ts = Except.error HErr.shapeMismatch ↔
      ∃ t ∈ ts, t.shape.headI ≠ ts.headI.shape.headI) ∧
    ((∀ t ∈ ts, t.shape.headI = ts.headI.shape.headI) →
      ∃ r, concatTensors ts = Except.ok r ∧
        r.shape = [ts.headI.shape.headI, (ts.map (fun t => t.shape.tail.prod)).sum]) ∧
    (∀ (env : PTEnv) (node : PNode) (granularity : Granularity)
       (num_iterations minIter : Nat) (eps tol : ℚ),
       env.modelOutputs = ts →
       env.isKernelOp node.type = true →
       (env.kernelOpAttributes node.type).length = 1 →
       (∃ t ∈ ts, t.shape.headI ≠ ts.headI.shape.headI) →
       compute env node granularity num_iterations minIter eps tol =
         Except.error HErr.shapeMismatch) := by
  refine ⟨concatTensors_error_iff ts, ?_, ?_⟩
  · intro hall
    exact ⟨_, concatTensors_ok ts hall, concatAxis1_reshape_shape ts⟩
  · intro env node granularity num_iterations minIter eps tol henv hk ha hexists
    apply compute_error_of_concat env node granularity num_iterations minIter eps tol _ hk ha
    rw [henv]
    exact (concatTensors_error_iff ts).mpr hexists

/-- Witness for C6: two concrete outputs with batch sizes 1 and 2 fail concatenation
with the shape-mismatch error. -/
theorem c6_concat_shape_mismatch_witness :
    concatTensors [⟨[1, 2], fun _ => 1⟩, ⟨[2, 2], fun _ => 1⟩] =
      Except.error HErr.shapeMismatch :=
  (c6_concat_shape_mismatch [⟨[1, 2], fun _ => 1⟩, ⟨[2, 2], fun _ => 1⟩]
      (by
        intro t ht
        rcases List.mem_cons.mp ht with h | h
        · subst h; simp
        · rw [List.mem_singleton] at h; subst h; simp)).1.mpr
    ⟨⟨[2, 2], fun _ => 1⟩, List.Mem.tail _ (List.Mem.head _), by decide⟩

/-- C3: the convergence test runs only after the configured minimum iteration count
has passed; it compares the running means including and excluding the newest sample
and stops exactly when every element satisfies
`|new_mean - old_mean| / (|new_mean| + eps) < tol`, otherwise the loop continues to
the iteration cap. -/
theorem c3_convergence_test (P : LoopP) (numIter : Nat) :
    hessLoop P numIter 0 [] = accAt P (runLen P numIter 0) ∧
    runLen P numIter 0 ≤ numIter ∧
    (runLen P numIter 0 < numIter → stopAt P (runLen P numIter 0) = true) ∧
    (∀ j, j < runLen P numIter 0 → stopAt P j = false) ∧
    (∀ j, j ≤ P.minIter → stopAt P j = false) ∧
    (∀ j, stopAt P j = true ↔ (P.minIter < j ∧ ∀ ix ∈ allIdx (deltaAt P j).shape,
        |(deltaAt P j).entry ix| / (|(newMeanAt P j).entry ix| + P.eps) < P.tol)) ∧
    ((∀ j, j < numIter → stopAt P j = false) → (hessLoop P numIter 0 []).length = numIter) := by
  refine ⟨hessLoop_zero_start P numIter, runLen_le P numIter 0, ?_, ?_, ?_, ?_, ?_⟩
  · intro h
    have := runLen_stop P numIter 0 h
    simpa using this
  · intro j hj
    have := runLen_no_stop P numIter 0 j hj
    simpa using this
  · intro j hj
    exact stopAt_of_le_minIter P j hj
  · intro j
    rw [stopAt, Bool.and_eq_true, decide_eq_true_iff, convergedAll, List.all_eq_true]
    constructor
    · rintro ⟨h1, h2⟩
      exact ⟨h1, fun ix hix => by simpa using h2 ix hix⟩
    · rintro ⟨h1, h2⟩
      exact ⟨h1, fun ix hix => by simpa using h2 ix hix⟩
  · intro h
    rw [hessLoop_zero_start P numIter]
    rw [accAt_length]
    apply runLen_eq_fuel
    intro i hi
    simpa using h i hi

/-- Witness for C3, instantiating the characterization at the concrete loop `PC`. -/
theorem c3_convergence_test_witness :
    hessLoop PC 3 0 [] = accAt PC (runLen PC 3 0) :=
  (c3_convergence_test PC 3).1

/-- C10 (implicit): when the convergence test succeeds at iteration `m`, the loop
breaks before appending that iteration's approximation, so the returned score is the
mean of exactly the first `m` approximations, even though the test itself was
evaluated on the running mean that included the newest sample. -/
theorem c10_break_excludes_trigger (env : PTEnv) (node : PNode) (granularity : Granularity)
    (num_iterations minIter : Nat) (eps tol : ℚ) (P : LoopP) (m : Nat)
    (hP : P = mkLoopP env node granularity (concatAxis1 (env.modelOutputs.map reshapeBatchFlat))
      minIter eps tol)
    (hk : env.isKernelOp node.type = true)
    (ha : (env.kernelOpAttributes node.type).length = 1)
    (hcc : ∀ t ∈ env.modelOutputs, t.shape.headI = env.modelOutputs.headI.shape.headI)
    (h1 : ∀ j, j < m → stopAt P j = false)
    (h2 : stopAt P m = true)
    (h3 : m < num_iterations) :
    hessLoop P num_iterations 0 [] = accAt P m ∧
    (accAt P m).length = m ∧
    convergedAll (deltaAt P m) (newMeanAt P m) P.eps P.tol = true ∧
    compute env node granularity num_iterations minIter eps tol =
      (if granularity = Granularity.PER_TENSOR then Except.ok (reshape1 (meanStack (accAt P m)))
       else Except.ok (meanStack (accAt P m))) := by
  have hr : runLen P num_iterations 0 = m := by
    apply runLen_of_pattern P num_iterations 0 m
    · intro i hi
      simpa using h1 i hi
    · simpa using h2
    · exact h3
  refine ⟨?_, accAt_length P m, ?_, ?_⟩
  · rw [hessLoop_zero_start P num_iterations, hr]
  · rw [stopAt, Bool.and_eq_true] at h2
    exact h2.2
  · rw [compute_ok_eq env node granularity num_iterations minIter eps tol _ hk ha
      (concatTensors_ok env.modelOutputs hcc)]
    rw [← hP, hr]

/-- Witness for C10: in the concrete loop `PC` (constant gradient oracle), the test
succeeds at iteration 1 and the loop returns exactly the first approximation. -/
theorem c10_break_excludes_trigger_witness :
    hessLoop PC 3 0 [] = accAt PC 1 :=
  (c10_break_excludes_trigger envC nodeC Granularity.PER_TENSOR 3 0 (1/100) (1/100) PC 1
      rfl rfl rfl
      (by
        intro t ht
        simp only [envC] at ht
        rw [List.mem_singleton] at ht
        subst ht
        rfl)
      (by
        intro j hj
        have hj0 : j = 0 := by omega
        subst hj0
        exact stopAt_zero PC)
      (const_grad_stopAt PC ⟨[3, 2], fun _ => 1⟩ (fun _ _ => rfl) 1 (by decide) (by decide)
        (show (0 : ℚ) < 1/100 by norm_num))
      (by decide)).1

/-- C1: for a supported kernel-bearing node, the score array returned by `compute`
has shape `(1,)` for `PER_TENSOR`, exactly one axis whose length is the node's
output-channel count (the kernel-channel axis from the framework tables) for
`PER_OUTPUT_CHANNEL`, and the full weight-tensor shape for `PER_ELEMENT`. -/
theorem c1_score_shapes (env : PTEnv) (node : PNode) (num_iterations minIter : Nat)
    (eps tol : ℚ)
    (hk : env.isKernelOp node.type = true)
    (ha : (env.kernelOpAttributes node.type).length = 1)
    (hcc : ∀ t ∈ env.modelOutputs, t.shape.headI = env.modelOutputs.headI.shape.headI)
    (hit : 0 < num_iterations)
    (hg : ∀ q v, (env.gradW q v).shape = targetWeightShape env node) :
    (∃ r, compute env node Granularity.PER_TENSOR num_iterations minIter eps tol =
        Except.ok r ∧ r.shape = [1]) ∧
    (outChannelAxis env node < (targetWeightShape env node).length →
      ∃ r, compute env node Granularity.PER_OUTPUT_CHANNEL num_iterations minIter eps tol =
          Except.ok r ∧
        r.shape = [(targetWeightShape env node).getD (outChannelAxis env node) 0]) ∧
    (∃ r, compute env node Granularity.PER_ELEMENT num_iterations minIter eps tol =
        Except.ok r ∧ r.shape = targetWeightShape env node) := by
  have hok := concatTensors_ok env.modelOutputs hcc
  refine ⟨?_, ?_, ?_⟩
  · have h := compute_ok_eq env node Granularity.PER_TENSOR num_iterations minIter eps tol _
      hk ha hok
    rw [if_pos rfl] at h
    exact ⟨_, h, rfl⟩
  · intro hc
    have h := compute_ok_eq env node Granularity.PER_OUTPUT_CHANNEL num_iterations minIter
      eps tol _ hk ha hok
    rw [if_neg (by decide)] at h
    refine ⟨_, h, ?_⟩
    have hm : 0 < runLen (mkLoopP env node Granularity.PER_OUTPUT_CHANNEL
        (concatAxis1 (env.modelOutputs.map reshapeBatchFlat)) minIter eps tol)
        num_iterations 0 := runLen_pos _ _ hit
    rw [meanStack_accAt_shape _ _ hm (targetWeightShape env node) hg]
    rw [mkLoopP_sca]
    simp only [shapeChannelAxis]
    by_cases hlen : 0 < ((List.range (targetWeightShape env node).length).erase
        (outChannelAxis env node)).length
    · rw [if_pos hlen]
      exact keepNotIn_erase (targetWeightShape env node) (outChannelAxis env node) hc
    · rw [if_neg hlen]
      have hlenE : ((List.range (targetWeightShape env node).length).erase
          (outChannelAxis env node)).length = (targetWeightShape env node).length - 1 := by
        have hmem : outChannelAxis env node ∈ List.range (targetWeightShape env node).length := by
          rw [List.mem_range]
          exact hc
        simpa using List.length_erase_of_mem hmem
      have hws1 : (targetWeightShape env node).length = 1 := by omega
      have hc0 : outChannelAxis env node = 0 := by omega
      rcases List.length_eq_one.mp hws1 with ⟨x, hx⟩
      rw [hx, hc0]
      rfl
  · have h := compute_ok_eq env node Granularity.PER_ELEMENT num_iterations minIter eps tol _
      hk ha hok
    rw [if_neg (by decide)] at h
    refine ⟨_, h, ?_⟩
    have hm : 0 < runLen (mkLoopP env node Granularity.PER_ELEMENT
        (concatAxis1 (env.modelOutputs.map reshapeBatchFlat)) minIter eps tol)
        num_iterations 0 := runLen_pos _ _ hit
    rw [meanStack_accAt_shape _ _ hm (targetWeightShape env node) hg]
    rw [mkLoopP_sca]
    simp only [shapeChannelAxis]
    simp

/-- Witness for C1: the concrete environment `envC` yields a `(1,)`-shaped
`PER_TENSOR` score. -/
theorem c1_score_shapes_witness :
    ∃ r, compute envC nodeC Granularity.PER_TENSOR 1 0 (1/100) (1/100) = Except.ok r ∧
      r.shape = [1] :=
  (c1_score_shapes envC nodeC 1 0 (1/100) (1/100) rfl rfl
      (by
        intro t ht
        simp only [envC] at ht
        rw [List.mem_singleton] at ht
        subst ht
        rfl)
      (by decide) (fun _ _ => rfl)).1

/-- C2: each iteration of the loop draws a random vector of the model output's shape,
forms `f = mean(sum(v * output, axis=feature))`, feeds it to the gradient engine,
squares the gradient elementwise, and reduce-sums over all axes except the
output-channel axis (`PER_OUTPUT_CHANNEL`), over no axes (`PER_ELEMENT`), or over all
axes (`PER_TENSOR`): the `j`-th retained approximation equals the spec-side
description `specIterApprox` in shape and in every valid entry. -/
theorem c2_iteration_matches_spec (P : LoopP) (granularity : Granularity) (ws : List Nat)
    (c numIter : Nat) (hsca : P.sca = shapeChannelAxis granularity ws c) :
    ∀ j, j < (hessLoop P numIter 0 []).length →
      (hessLoop P numIter 0 []).getD j default = approxAt P j ∧
      (approxAt P j).shape =
        (specIterApprox granularity ws c P.output P.randn P.gradW j).shape ∧
      ∀ ix ∈ allIdx (approxAt P j).shape,
        (approxAt P j).entry ix =
          (specIterApprox granularity ws c P.output P.randn P.gradW j).entry ix := by
  intro j hj
  obtain ⟨hsh, hent⟩ := approxAt_spec P granularity ws c j hsca
  refine ⟨?_, hsh, hent⟩
  rw [hessLoop_zero_start P numIter] at hj ⊢
  rw [accAt_length] at hj
  rw [accAt]
  rw [List.getD_eq_getElem _ _ (by simpa using hj)]
  rw [List.getElem_map, List.getElem_range]

/-- Witness for C2, at iteration 0 of the concrete loop `PC`. -/
theorem c2_iteration_matches_spec_witness :
    (hessLoop PC 3 0 []).getD 0 default = approxAt PC 0 ∧
    (approxAt PC 0).shape =
      (specIterApprox Granularity.PER_TENSOR [3, 2] 1 PC.output PC.randn PC.gradW 0).shape ∧
    ∀ ix ∈ allIdx (approxAt PC 0).shape,
      (approxAt PC 0).entry ix =
        (specIterApprox Granularity.PER_TENSOR [3, 2] 1 PC.output PC.randn PC.gradW 0).entry ix :=
  c2_iteration_matches_spec PC Granularity.PER_TENSOR [3, 2] 1 3 rfl 0
    (by
      have h1 : stopAt PC 1 = true :=
        const_grad_stopAt PC ⟨[3, 2], fun _ => 1⟩ (fun _ _ => rfl) 1 (by decide) (by decide)
          (show (0 : ℚ) < 1/100 by norm_num)
      have h0 : ∀ i, i < 1 → stopAt PC (0 + i) = false := by
        intro i hi
        have hi0 : i = 0 := by omega
        subst hi0
        simpa using stopAt_zero PC
      have hr : runLen PC 3 0 = 1 :=
        runLen_of_pattern PC 3 0 1 h0 (by simpa using h1) (by omega)
      rw [hessLoop_zero_start PC 3, accAt_length, hr]
      omega)

/-- C7: every score array returned by `compute` is elementwise non-negative: each
retained approximation is a sum of squares of gradient entries, and the final score
is the elementwise mean of the retained approximations (reshaped to a length-1 array
for `PER_TENSOR`). -/
theorem c7_scores_nonneg (env : PTEnv) (node : PNode) (granularity : Granularity)
    (num_iterations minIter : Nat) (eps tol : ℚ) (r : Tensor)
    (_hit : 0 < num_iterations)
    (hok : compute env node granularity num_iterations minIter eps tol = Except.ok r) :
    ∀ ix, 0 ≤ r.entry ix := by
  cases hkb : env.isKernelOp node.type with
  | false =>
    rw [compute_error_of_not_kernel env node granularity num_iterations minIter eps tol hkb]
      at hok
    exact Except.noConfusion hok
  | true =>
    by_cases hab : (env.kernelOpAttributes node.type).length = 1
    · cases hcb : concatTensors env.modelOutputs with
      | error e =>
        rw [compute_error_of_concat env node granularity num_iterations minIter eps tol e
          hkb hab hcb] at hok
        exact Except.noConfusion hok
      | ok out =>
        rw [compute_ok_eq env node granularity num_iterations minIter eps tol out hkb hab hcb]
          at hok
        have hnn : ∀ ix, 0 ≤ (meanStack (accAt (mkLoopP env node granularity out minIter eps tol)
            (runLen (mkLoopP env node granularity out minIter eps tol)
              num_iterations 0))).entry ix := by
          intro ix
          apply meanStack_entry_nonneg
          intro t ht ix'
          rcases List.mem_map.mp ht with ⟨i, _, rfl⟩
          exact approxAt_entry_nonneg _ i ix'
        by_cases hgr : granularity = Granularity.PER_TENSOR
        · rw [if_pos hgr] at hok
          injection hok with h
          subst h
          intro ix
          exact hnn []
        · rw [if_neg hgr] at hok
          injection hok with h
          subst h
          intro ix
          exact hnn ix
    · rw [compute_error_of_attrs env node granularity num_iterations minIter eps tol hkb hab]
        at hok
      exact Except.noConfusion hok

/-- Witness for C7: a concrete `PER_TENSOR` score with a non-negative entry. -/
theorem c7_scores_nonneg_witness :
    ∃ r, compute envC nodeC Granularity.PER_TENSOR 1 0 (1/100) (1/100) = Except.ok r ∧
      0 ≤ r.entry [0] :=
  ⟨_, rfl, c7_scores_nonneg envC nodeC Granularity.PER_TENSOR 1 0 (1/100) (1/100) _
    (by decide) rfl [0]⟩

end MCT
